import Mathlib

/-!
Verification of the ATH validation script (src/main.py).

The development shallowly embeds the core of the script:
the three metric extractors over measurement histograms, the retry
loop of run_enhanced_validation, and analyze_enhanced_results.
Machine floats are modelled as exact rationals; Python ints as Int/Nat.
External library calls (scipy linregress, find_peaks, the FFT step and
scipy sem) are modelled as oracle parameters, since the source uses
them as black boxes.
-/

namespace ATH

/-- A measurement histogram: each entry pairs a measured state with its
observed count.  A state is the list of per-character digit values of the
bit-string key (Python computes int(x) for each character x), and counts
are Python ints, hence Int. -/
abbrev Counts : Type := List (List ℕ × ℤ)

/-- total = sum(counts.values()) -/
def histTotal (counts : Counts) : ℤ :=
  (counts.map Prod.snd).sum

/-- Number of indices i with bits[i] == bits[i+1] == bits[i+2], exactly the
window scan of _calculate_temporal_correlation (one hit adds the count once). -/
def countRuns3 : List ℕ → ℕ
  | a :: b :: c :: rest =>
      (if a = b ∧ b = c then 1 else 0) + countRuns3 (b :: c :: rest)
  | _ => 0

/-- Number of indices i with bits[i:i+4] equal to 1010 or 0101, exactly the
window scan of _calculate_beyond_quantum_metric. -/
def countAlt4 : List ℕ → ℕ
  | a :: b :: c :: d :: rest =>
      (if (a = 1 ∧ b = 0 ∧ c = 1 ∧ d = 0) ∨ (a = 0 ∧ b = 1 ∧ c = 0 ∧ d = 1)
       then 1 else 0) + countAlt4 (b :: c :: d :: rest)
  | _ => 0

/-- local_entropy = sum(bits) / len(bits) -/
def localEntropy (bits : List ℕ) : ℚ :=
  (bits.sum : ℚ) / (bits.length : ℚ)

/-- _calculate_temporal_correlation (the leading underscore of the Python
name is dropped).  correlation_sum adds the count of a state once per
matching length-3 window, so a state contributes countRuns3 * count. -/
def calculate_temporal_correlation (counts : Counts) : ℚ :=
  if counts = [] then 0
  else if histTotal counts = 0 then 0
  else (((counts.map (fun p => (countRuns3 p.1 : ℤ) * p.2)).sum : ℤ) : ℚ) /
        ((histTotal counts : ℤ) : ℚ)

/-- _calculate_falsification_metric: weight = abs(local_entropy - 0.5) * count,
summed over states and divided by the total count. -/
def calculate_falsification_metric (counts : Counts) : ℚ :=
  if counts = [] then 0
  else if histTotal counts = 0 then 0
  else ((counts.map (fun p => |localEntropy p.1 - 1/2| * (p.2 : ℚ))).sum) /
        ((histTotal counts : ℤ) : ℚ)

/-- _calculate_beyond_quantum_metric: a state contributes its count once per
length-4 window equal to 1010 or 0101. -/
def calculate_beyond_quantum_metric (counts : Counts) : ℚ :=
  if counts = [] then 0
  else if histTotal counts = 0 then 0
  else (((counts.map (fun p => (countAlt4 p.1 : ℤ) * p.2)).sum : ℤ) : ℚ) /
        ((histTotal counts : ℤ) : ℚ)

/-- The length-3 window scan finds at most length - 2 windows. -/
lemma countRuns3_le : ∀ l : List ℕ, countRuns3 l ≤ l.length - 2
  | [] => by simp [countRuns3]
  | [_] => by simp [countRuns3]
  | [_, _] => by simp [countRuns3]
  | a :: b :: c :: rest => by
      have ih := countRuns3_le (b :: c :: rest)
      simp only [countRuns3, List.length_cons] at ih ⊢
      split <;> omega

/-- The length-4 window scan finds at most length - 3 windows. -/
lemma countAlt4_le : ∀ l : List ℕ, countAlt4 l ≤ l.length - 3
  | [] => by simp [countAlt4]
  | [_] => by simp [countAlt4]
  | [_, _] => by simp [countAlt4]
  | [_, _, _] => by simp [countAlt4]
  | a :: b :: c :: d :: rest => by
      have ih := countAlt4_le (b :: c :: d :: rest)
      simp only [countAlt4, List.length_cons] at ih ⊢
      split <;> omega

lemma histTotal_nonneg (counts : Counts) (h : ∀ p ∈ counts, 0 ≤ p.2) :
    0 ≤ histTotal counts := by
  apply List.sum_nonneg
  intro x hx
  obtain ⟨p, hp, rfl⟩ := List.mem_map.mp hx
  exact h p hp

lemma histTotal_pos (counts : Counts) (h : ∀ p ∈ counts, 0 ≤ p.2)
    (hne : histTotal counts ≠ 0) : 0 < histTotal counts := by
  have := histTotal_nonneg counts h
  omega

/-- Bounds for the integer window-weighted sums used by the temporal and
beyond-quantum metrics. -/
lemma weighted_intSum_bounds : ∀ (counts : Counts) (g : List ℕ → ℕ) (B : ℕ),
    (∀ p ∈ counts, g p.1 ≤ B) → (∀ p ∈ counts, 0 ≤ p.2) →
    0 ≤ (counts.map (fun p => (g p.1 : ℤ) * p.2)).sum ∧
      (counts.map (fun p => (g p.1 : ℤ) * p.2)).sum ≤ (B : ℤ) * histTotal counts
  | [], g, B, _, _ => by simp [histTotal]
  | p :: t, g, B, hB, hpos => by
      obtain ⟨ih1, ih2⟩ := weighted_intSum_bounds t g B
        (fun q hq => hB q (List.mem_cons_of_mem p hq))
        (fun q hq => hpos q (List.mem_cons_of_mem p hq))
      have hp2 : (0:ℤ) ≤ p.2 := hpos p (List.mem_cons_self p t)
      have hgp : (g p.1 : ℤ) ≤ (B : ℤ) := by exact_mod_cast hB p (List.mem_cons_self p t)
      have h1 : (0:ℤ) ≤ (g p.1 : ℤ) * p.2 := mul_nonneg (by positivity) hp2
      have h2 : (g p.1 : ℤ) * p.2 ≤ (B:ℤ) * p.2 := mul_le_mul_of_nonneg_right hgp hp2
      simp only [histTotal, List.map_cons, List.sum_cons] at ih1 ih2 ⊢
      refine ⟨by linarith, ?_⟩
      have hd : (B:ℤ) * (p.2 + (t.map Prod.snd).sum)
          = (B:ℤ) * p.2 + (B:ℤ) * (t.map Prod.snd).sum := by ring
      linarith

/-- Bounds for rational weighted sums used by the falsification metric. -/
lemma weighted_ratSum_bounds : ∀ (counts : Counts) (w : List ℕ × ℤ → ℚ) (B : ℚ),
    (∀ p ∈ counts, 0 ≤ w p) → (∀ p ∈ counts, w p ≤ B * (p.2 : ℚ)) →
    0 ≤ (counts.map w).sum ∧ (counts.map w).sum ≤ B * ((histTotal counts : ℤ) : ℚ)
  | [], w, B, _, _ => by simp [histTotal]
  | p :: t, w, B, h0, hB => by
      obtain ⟨ih1, ih2⟩ := weighted_ratSum_bounds t w B
        (fun q hq => h0 q (List.mem_cons_of_mem p hq))
        (fun q hq => hB q (List.mem_cons_of_mem p hq))
      have hp0 : 0 ≤ w p := h0 p (List.mem_cons_self p t)
      have hpB : w p ≤ B * (p.2 : ℚ) := hB p (List.mem_cons_self p t)
      simp only [histTotal, List.map_cons, List.sum_cons] at ih1 ih2 ⊢
      refine ⟨by linarith, ?_⟩
      have hc : (((p.2 + (t.map Prod.snd).sum : ℤ)) : ℚ)
          = (p.2 : ℚ) + ((((t.map Prod.snd).sum : ℤ)) : ℚ) := by push_cast; ring
      rw [hc, mul_add]
      linarith

/-- A nonnegative quotient with numerator at most B times a positive
denominator lies in the interval from 0 to B. -/
lemma ratio_bounds (num : ℚ) (tot : ℤ) (B : ℚ) (h0 : 0 ≤ num)
    (hB : num ≤ B * (tot : ℚ)) (hpos : 0 < tot) :
    0 ≤ num / ((tot : ℤ) : ℚ) ∧ num / ((tot : ℤ) : ℚ) ≤ B := by
  have ht : (0:ℚ) < ((tot : ℤ) : ℚ) := by exact_mod_cast hpos
  refine ⟨div_nonneg h0 ht.le, ?_⟩
  rw [div_le_iff₀ ht]
  linarith

/-- With all characters 0 or 1 and a nonempty state, the local density lies
in the unit interval, so its deviation from one half is at most one half. -/
lemma abs_localEntropy_sub_half (bits : List ℕ) (hne : bits ≠ [])
    (hb : ∀ b ∈ bits, b ≤ 1) : |localEntropy bits - 1/2| ≤ 1/2 := by
  have hlen : 0 < bits.length := List.length_pos.mpr hne
  have hsum : bits.sum ≤ bits.length := by
    have := List.sum_le_card_nsmul bits 1 hb
    simpa using this
  have hlq : (0:ℚ) < (bits.length : ℚ) := by exact_mod_cast hlen
  have h0 : (0:ℚ) ≤ localEntropy bits := by
    unfold localEntropy
    positivity
  have h1 : localEntropy bits ≤ 1 := by
    rw [localEntropy, div_le_one hlq]
    exact_mod_cast hsum
  rw [abs_le]
  constructor <;> linarith

lemma temporal_bounds (counts : Counts)
    (hlen : ∀ p ∈ counts, p.1.length = 8) (hpos : ∀ p ∈ counts, 0 ≤ p.2) :
    0 ≤ calculate_temporal_correlation counts ∧
      calculate_temporal_correlation counts ≤ 6 := by
  by_cases hc : counts = []
  · simp [calculate_temporal_correlation, hc]
  by_cases ht : histTotal counts = 0
  · simp [calculate_temporal_correlation, hc, ht]
  have htpos := histTotal_pos counts hpos ht
  have hg : ∀ p ∈ counts, countRuns3 p.1 ≤ 6 := by
    intro p hp
    have h := countRuns3_le p.1
    rw [hlen p hp] at h
    omega
  obtain ⟨hs0, hsB⟩ := weighted_intSum_bounds counts countRuns3 6 hg hpos
  have hr := ratio_bounds (((counts.map (fun p => (countRuns3 p.1 : ℤ) * p.2)).sum : ℤ) : ℚ)
    (histTotal counts) 6 (by exact_mod_cast hs0) (by exact_mod_cast hsB) htpos
  simpa [calculate_temporal_correlation, hc, ht] using hr

lemma beyond_bounds (counts : Counts)
    (hlen : ∀ p ∈ counts, p.1.length = 8) (hpos : ∀ p ∈ counts, 0 ≤ p.2) :
    0 ≤ calculate_beyond_quantum_metric counts ∧
      calculate_beyond_quantum_metric counts ≤ 5 := by
  by_cases hc : counts = []
  · simp [calculate_beyond_quantum_metric, hc]
  by_cases ht : histTotal counts = 0
  · simp [calculate_beyond_quantum_metric, hc, ht]
  have htpos := histTotal_pos counts hpos ht
  have hg : ∀ p ∈ counts, countAlt4 p.1 ≤ 5 := by
    intro p hp
    have h := countAlt4_le p.1
    rw [hlen p hp] at h
    omega
  obtain ⟨hs0, hsB⟩ := weighted_intSum_bounds counts countAlt4 5 hg hpos
  have hr := ratio_bounds (((counts.map (fun p => (countAlt4 p.1 : ℤ) * p.2)).sum : ℤ) : ℚ)
    (histTotal counts) 5 (by exact_mod_cast hs0) (by exact_mod_cast hsB) htpos
  simpa [calculate_beyond_quantum_metric, hc, ht] using hr

lemma falsification_bounds_aux (counts : Counts)
    (hne : ∀ p ∈ counts, p.1 ≠ []) (hb : ∀ p ∈ counts, ∀ b ∈ p.1, b ≤ 1)
    (hpos : ∀ p ∈ counts, 0 ≤ p.2) :
    0 ≤ calculate_falsification_metric counts ∧
      calculate_falsification_metric counts ≤ 1/2 := by
  by_cases hc : counts = []
  · simp [calculate_falsification_metric, hc]
  by_cases ht : histTotal counts = 0
  · simp [calculate_falsification_metric, hc, ht]
  have htpos := histTotal_pos counts hpos ht
  have h0 : ∀ p ∈ counts, 0 ≤ |localEntropy p.1 - 1/2| * (p.2 : ℚ) := by
    intro p hp
    have : (0:ℚ) ≤ (p.2 : ℚ) := by exact_mod_cast hpos p hp
    exact mul_nonneg (abs_nonneg _) this
  have hB : ∀ p ∈ counts, |localEntropy p.1 - 1/2| * (p.2 : ℚ) ≤ (1/2) * (p.2 : ℚ) := by
    intro p hp
    have hq : (0:ℚ) ≤ (p.2 : ℚ) := by exact_mod_cast hpos p hp
    exact mul_le_mul_of_nonneg_right (abs_localEntropy_sub_half p.1 (hne p hp) (hb p hp)) hq
  obtain ⟨hs0, hsB⟩ := weighted_ratSum_bounds counts
    (fun p => |localEntropy p.1 - 1/2| * (p.2 : ℚ)) (1/2) h0 hB
  have hr := ratio_bounds ((counts.map (fun p => |localEntropy p.1 - 1/2| * (p.2 : ℚ))).sum)
    (histTotal counts) (1/2) hs0 hsB htpos
  simpa [calculate_falsification_metric, hc, ht] using hr

/-- Claim C2 counterexample: the histogram mapping the all-zero 8-bit string
to count 100 meets the hypotheses of the claim (keys of length 8, counts
nonnegative), yet the temporal correlation evaluates to 6, outside the unit
interval, and the beyond-quantum metric of the alternating 8-bit string at
count 100 evaluates to 5, also outside the unit interval.  The scans add the
full count once per matching window and normalize by the total count only. -/
theorem metric_unit_range_cex :
    calculate_temporal_correlation [([0,0,0,0,0,0,0,0], 100)] = 6 ∧
    ¬ calculate_temporal_correlation [([0,0,0,0,0,0,0,0], 100)] ≤ 1 ∧
    calculate_beyond_quantum_metric [([1,0,1,0,1,0,1,0], 100)] = 5 ∧
    ¬ calculate_beyond_quantum_metric [([1,0,1,0,1,0,1,0], 100)] ≤ 1 := by
  refine ⟨?_, ?_, ?_, ?_⟩ <;>
    norm_num [calculate_temporal_correlation, calculate_beyond_quantum_metric,
      histTotal, countRuns3, countAlt4, List.cons_ne_nil]

/-- Claim C2 (amended): for every histogram whose keys are bit-strings of the
fixed measured length 8 and whose counts are nonnegative, the temporal
correlation lies in [0, 6] (six length-3 windows), the falsification metric
lies in [0, 1], and the beyond-quantum metric lies in [0, 5] (five length-4
windows). -/
theorem metrics_bounded (counts : Counts)
    (h : ∀ p ∈ counts, p.1.length = 8 ∧ (∀ b ∈ p.1, b ≤ 1) ∧ 0 ≤ p.2) :
    (0 ≤ calculate_temporal_correlation counts ∧
      calculate_temporal_correlation counts ≤ 6) ∧
    (0 ≤ calculate_falsification_metric counts ∧
      calculate_falsification_metric counts ≤ 1) ∧
    (0 ≤ calculate_beyond_quantum_metric counts ∧
      calculate_beyond_quantum_metric counts ≤ 5) := by
  have hlen : ∀ p ∈ counts, p.1.length = 8 := fun p hp => (h p hp).1
  have hb : ∀ p ∈ counts, ∀ b ∈ p.1, b ≤ 1 := fun p hp => (h p hp).2.1
  have hpos : ∀ p ∈ counts, 0 ≤ p.2 := fun p hp => (h p hp).2.2
  have hne : ∀ p ∈ counts, p.1 ≠ [] := by
    intro p hp hnil
    have := hlen p hp
    rw [hnil] at this
    simp at this
  obtain ⟨hf0, hf2⟩ := falsification_bounds_aux counts hne hb hpos
  exact ⟨temporal_bounds counts hlen hpos, ⟨hf0, by linarith⟩,
    beyond_bounds counts hlen hpos⟩

/-- Witness for the amended claim C2, at the all-zero histogram. -/
theorem metrics_bounded_witness :
    (0 ≤ calculate_temporal_correlation [([0,0,0,0,0,0,0,0], 100)] ∧
      calculate_temporal_correlation [([0,0,0,0,0,0,0,0], 100)] ≤ 6) ∧
    (0 ≤ calculate_falsification_metric [([0,0,0,0,0,0,0,0], 100)] ∧
      calculate_falsification_metric [([0,0,0,0,0,0,0,0], 100)] ≤ 1) ∧
    (0 ≤ calculate_beyond_quantum_metric [([0,0,0,0,0,0,0,0], 100)] ∧
      calculate_beyond_quantum_metric [([0,0,0,0,0,0,0,0], 100)] ≤ 5) :=
  metrics_bounded [([0,0,0,0,0,0,0,0], 100)] (by decide)

/-- Claim C3 counterexample: at the histogram mapping "00000000" to 100 the
temporal correlation is 6.0, not the claimed 1.0, because each of the six
all-equal windows adds the full count 100 and the sum 600 is divided by the
total count 100 only. -/
theorem all_zeros_temporal_ne_one :
    calculate_temporal_correlation [([0,0,0,0,0,0,0,0], 100)] = 6 ∧
    calculate_temporal_correlation [([0,0,0,0,0,0,0,0], 100)] ≠ 1 := by
  constructor <;>
    norm_num [calculate_temporal_correlation, histTotal, countRuns3, List.cons_ne_nil]

/-- Claim C3 (amended): for the histogram mapping the single bit-string
"00000000" to count 100, the temporal correlation is 6.0, the falsification
metric is 0.5, and the beyond-quantum metric is 0.0. -/
theorem all_zeros_metric_values :
    calculate_temporal_correlation [([0,0,0,0,0,0,0,0], 100)] = 6 ∧
    calculate_falsification_metric [([0,0,0,0,0,0,0,0], 100)] = 1/2 ∧
    calculate_beyond_quantum_metric [([0,0,0,0,0,0,0,0], 100)] = 0 := by
  refine ⟨?_, ?_, ?_⟩ <;>
    norm_num [calculate_temporal_correlation, calculate_falsification_metric,
      calculate_beyond_quantum_metric, histTotal, countRuns3, countAlt4,
      localEntropy, List.cons_ne_nil]

/-- Claim C6: for the empty histogram, and for any histogram whose counts sum
to 0, each of the three metric extractors returns exactly 0.0 (the guards at
the top of each extractor). -/
theorem metrics_zero_of_trivial (counts : Counts)
    (h : counts = [] ∨ histTotal counts = 0) :
    calculate_temporal_correlation counts = 0 ∧
    calculate_falsification_metric counts = 0 ∧
    calculate_beyond_quantum_metric counts = 0 := by
  rcases h with h | h
  · simp [calculate_temporal_correlation, calculate_falsification_metric,
      calculate_beyond_quantum_metric, h]
  · by_cases hc : counts = [] <;>
      simp [calculate_temporal_correlation, calculate_falsification_metric,
        calculate_beyond_quantum_metric, hc, h]

/-- Witness for claim C6 at a nonempty histogram with zero total count. -/
theorem metrics_zero_witness :
    histTotal [([1,0], 2), ([0], -2)] = 0 ∧
    (calculate_temporal_correlation [([1,0], 2), ([0], -2)] = 0 ∧
     calculate_falsification_metric [([1,0], 2), ([0], -2)] = 0 ∧
     calculate_beyond_quantum_metric [([1,0], 2), ([0], -2)] = 0) :=
  ⟨by decide, metrics_zero_of_trivial [([1,0], 2), ([0], -2)] (Or.inr (by decide))⟩

/-- Claim C10: for every histogram of fixed-length bit-strings (length L,
positive) with nonnegative counts, the falsification metric lies in
[0, 1/2]: each absolute deviation of the set-bit density from one half is at
most one half, so the count-weighted average never exceeds one half. -/
theorem falsification_bounded_half (counts : Counts) (L : ℕ) (hL : 0 < L)
    (h : ∀ p ∈ counts, p.1.length = L ∧ (∀ b ∈ p.1, b ≤ 1) ∧ 0 ≤ p.2) :
    0 ≤ calculate_falsification_metric counts ∧
      calculate_falsification_metric counts ≤ 1/2 := by
  have hne : ∀ p ∈ counts, p.1 ≠ [] := by
    intro p hp hnil
    have := (h p hp).1
    rw [hnil] at this
    simp at this
    omega
  exact falsification_bounds_aux counts hne (fun p hp => (h p hp).2.1)
    (fun p hp => (h p hp).2.2)

/-- Witness for claim C10 at the all-zero histogram with L = 8. -/
theorem falsification_bounded_half_witness :
    0 ≤ calculate_falsification_metric [([0,0,0,0,0,0,0,0], 100)] ∧
      calculate_falsification_metric [([0,0,0,0,0,0,0,0], 100)] ≤ 1/2 :=
  falsification_bounded_half [([0,0,0,0,0,0,0,0], 100)] 8 (by decide) (by decide)

/-- Result record of scipy.stats.linregress, one Option field per returned
value; none models a NaN value.  On an exception the caller sets every field
to NaN, modelled by allNaN. -/
structure RegressionResult where
  slope : Option ℚ
  intercept : Option ℚ
  r : Option ℚ
  p : Option ℚ
  stderr : Option ℚ
deriving DecidableEq

def RegressionResult.allNaN : RegressionResult :=
  ⟨none, none, none, none, none⟩

/-- Oracle for the library calls that analyze_enhanced_results treats as
black boxes: scipy linregress, scipy find_peaks (returning peak indices),
the FFT dominant-frequency computation of lines 229-230 of the source, and
scipy sem.  An error value models a raised exception, a none inside a
result a NaN. -/
structure ScipyOracle where
  linregress : List ℚ → List ℚ → Except Unit RegressionResult
  findPeaks : List ℚ → Except Unit (List ℕ)
  mainFreq : List ℚ → Except Unit ℚ
  sem : List ℚ → Option ℚ

/-- The per-metric record built by analyze_enhanced_results; none is the
NaN sentinel.  All seven fields of the Python dict are present. -/
structure AnalysisRecord where
  mean : ℚ
  sem : Option ℚ
  r_squared : Option ℚ
  p_value : Option ℚ
  slope : Option ℚ
  peaks : List ℚ
  main_frequency : Option ℚ
deriving DecidableEq

/-- np.mean of a nonempty list. -/
def listMean (l : List ℚ) : ℚ := l.sum / (l.length : ℚ)

/-- The body of the per-metric loop of analyze_enhanced_results (lines
209-242 of the source).  Each inner try/except of the source is one match on
the oracle: a failed linregress leaves every regression value NaN, a failed
find_peaks (or out-of-range peak indices, the numpy fancy-indexing error
caught by the same handler) leaves peaks empty, and a failed FFT step leaves
the main frequency NaN.  sem is computed only when the series has more than
one point, NaN otherwise. -/
def analyzeMetricRecord (o : ScipyOracle) (data : List (ℚ × ℚ)) : AnalysisRecord :=
  let x_vals := data.map Prod.fst
  let y_vals := data.map Prod.snd
  let reg : RegressionResult :=
    match o.linregress x_vals y_vals with
    | Except.ok r => r
    | Except.error _ => RegressionResult.allNaN
  let peak_values : List ℚ :=
    match o.findPeaks y_vals with
    | Except.ok peaks =>
        if 0 < peaks.length then
          if peaks.all (fun i => i < y_vals.length) then
            peaks.map (fun i => y_vals.getD i 0)
          else []
        else []
    | Except.error _ => []
  let main_freq : Option ℚ :=
    match o.mainFreq y_vals with
    | Except.ok f => some f
    | Except.error _ => none
  { mean := listMean y_vals
    sem := if 1 < y_vals.length then o.sem y_vals else none
    r_squared := reg.r.map (fun r => r ^ 2)
    p_value := reg.p
    slope := reg.slope
    peaks := peak_values
    main_frequency := main_freq }

/-- analyze_enhanced_results.  The input guard raises when the results dict
is empty or any of its series is falsy (empty); the per-metric empty-series
continue branches of lines 206-207 and 212-214 of the source are kept as
the filterMap guard, although they are unreachable once the input guard has
passed. -/
def analyze_enhanced_results (o : ScipyOracle)
    (results : List (String × List (ℚ × ℚ))) :
    Except String (List (String × AnalysisRecord)) :=
  if results.isEmpty || results.any (fun p => p.2.isEmpty) then
    Except.error "No valid results to analyze"
  else
    Except.ok (results.filterMap (fun p =>
      if p.2.isEmpty then none
      else some (p.1, analyzeMetricRecord o p.2)))

/-- An oracle on which every black-box library call raises. -/
def noneOracle : ScipyOracle where
  linregress := fun _ _ => Except.error ()
  findPeaks := fun _ => Except.error ()
  mainFreq := fun _ => Except.error ()
  sem := fun _ => none

lemma analyze_error_of_empty (o : ScipyOracle)
    (results : List (String × List (ℚ × ℚ)))
    (h : results = [] ∨ ∃ p ∈ results, p.2 = []) :
    analyze_enhanced_results o results =
      Except.error "No valid results to analyze" := by
  have hb : (results.isEmpty || results.any fun p => p.2.isEmpty) = true := by
    rcases h with h | ⟨p, hp, hpe⟩
    · simp [h]
    · simp only [Bool.or_eq_true, List.any_eq_true]
      exact Or.inr ⟨p, hp, by simp [hpe]⟩
  simp [analyze_enhanced_results, hb]

lemma filterMap_keep_of_no_empty (o : ScipyOracle) :
    ∀ (results : List (String × List (ℚ × ℚ))),
    (∀ p ∈ results, p.2 ≠ []) →
    results.filterMap (fun p => if p.2.isEmpty then none
      else some (p.1, analyzeMetricRecord o p.2)) =
      results.map (fun p => (p.1, analyzeMetricRecord o p.2))
  | [], _ => by simp
  | p :: t, h => by
      have hp : p.2 ≠ [] := h p (List.mem_cons_self p t)
      have ih := filterMap_keep_of_no_empty o t
        (fun q hq => h q (List.mem_cons_of_mem p hq))
      simp only [List.isEmpty_iff] at ih ⊢
      simp [List.filterMap_cons, hp, ih]

lemma analyze_ok_of_no_empty (o : ScipyOracle)
    (results : List (String × List (ℚ × ℚ)))
    (hne : results ≠ []) (h : ∀ p ∈ results, p.2 ≠ []) :
    analyze_enhanced_results o results =
      Except.ok (results.map (fun p => (p.1, analyzeMetricRecord o p.2))) := by
  have hb : (results.isEmpty || results.any fun p => p.2.isEmpty) = false := by
    simp only [Bool.or_eq_false_iff]
    constructor
    · simpa using hne
    · simp only [List.any_eq_false]
      intro p hp
      simpa using h p hp
  simp only [analyze_enhanced_results, hb, Bool.false_eq_true, if_false]
  rw [filterMap_keep_of_no_empty o results h]

/-- Claim C4 counterexample: a results mapping with one nonempty series and
one empty series.  The analyzer signals the fatal no-valid-data error even
though one metric has nonempty data, because the input guard of line 200 of
the source rejects the input when any series is falsy, so the empty series
is never skipped. -/
theorem analyzer_rejects_mixed_empty :
    ([("temporal_correlation", [((1:ℚ), (1:ℚ))]), ("falsification", [])].any
        (fun p => !p.2.isEmpty)) = true ∧
    analyze_enhanced_results noneOracle
        [("temporal_correlation", [((1:ℚ), (1:ℚ))]), ("falsification", [])] =
      Except.error "No valid results to analyze" :=
  ⟨rfl, rfl⟩

/-- Claim C4 (amended): analyze_enhanced_results signals the fatal
no-valid-data error exactly when the results mapping is empty or at least
one metric series is empty; when every series is nonempty it analyzes every
metric and returns one record per metric, skipping none. -/
theorem analyzer_error_characterization (o : ScipyOracle)
    (results : List (String × List (ℚ × ℚ))) :
    analyze_enhanced_results o results =
      if results = [] ∨ ∃ p ∈ results, p.2 = [] then
        Except.error "No valid results to analyze"
      else
        Except.ok (results.map (fun p => (p.1, analyzeMetricRecord o p.2))) := by
  by_cases h : results = [] ∨ ∃ p ∈ results, p.2 = []
  · rw [if_pos h]
    exact analyze_error_of_empty o results h
  · rw [if_neg h]
    push_neg at h
    exact analyze_ok_of_no_empty o results h.1 h.2

/-- Claim C7: for a metric whose series is nonempty but has a single entry,
the analyzer returns normally, the record for that metric is present in the
output, and its standard error field is the NaN sentinel (the len check of
line 236 of the source), with no exception raised. -/
theorem sem_nan_single_point (o : ScipyOracle)
    (results : List (String × List (ℚ × ℚ))) (name : String)
    (series : List (ℚ × ℚ))
    (hmem : (name, series) ∈ results)
    (hall : ∀ p ∈ results, p.2 ≠ [])
    (hlen : series.length = 1) :
    analyze_enhanced_results o results =
      Except.ok (results.map (fun p => (p.1, analyzeMetricRecord o p.2))) ∧
    (name, analyzeMetricRecord o series) ∈
      results.map (fun p => (p.1, analyzeMetricRecord o p.2)) ∧
    (analyzeMetricRecord o series).sem = none := by
  have hne : results ≠ [] := by
    intro hnil
    rw [hnil] at hmem
    simp at hmem
  refine ⟨analyze_ok_of_no_empty o results hne hall, ?_, ?_⟩
  · exact List.mem_map_of_mem (fun p => (p.1, analyzeMetricRecord o p.2)) hmem
  · simp [analyzeMetricRecord, hlen]

/-- Witness for claim C7 at a single-metric mapping with a one-point series. -/
theorem sem_nan_single_point_witness :
    analyze_enhanced_results noneOracle
        [("temporal_correlation", [((1:ℚ), (0:ℚ))])] =
      Except.ok [("temporal_correlation",
        analyzeMetricRecord noneOracle [((1:ℚ), (0:ℚ))])] ∧
    (analyzeMetricRecord noneOracle [((1:ℚ), (0:ℚ))]).sem = none := by
  obtain ⟨h1, _, h3⟩ := sem_nan_single_point noneOracle
    [("temporal_correlation", [((1:ℚ), (0:ℚ))])] "temporal_correlation"
    [((1:ℚ), (0:ℚ))] (by simp) (by simp) rfl
  exact ⟨h1, h3⟩

/-- Claim C9: in the per-metric analysis, a failure of one stage (linear
regression, peak detection, or the FFT dominant-frequency step) yields the
undefined sentinel for exactly the fields of that stage, and leaves every
other field as it would be with any other outcome of that stage; the record
type itself carries all seven fields, so every returned record is fully
populated.  Stated for two oracles that agree outside the varied stage. -/
theorem analysis_stage_isolation (o o2 : ScipyOracle) (data : List (ℚ × ℚ)) :
    (o.linregress (data.map Prod.fst) (data.map Prod.snd) = Except.error () →
       (analyzeMetricRecord o data).r_squared = none ∧
       (analyzeMetricRecord o data).p_value = none ∧
       (analyzeMetricRecord o data).slope = none) ∧
    (o.findPeaks (data.map Prod.snd) = Except.error () →
       (analyzeMetricRecord o data).peaks = []) ∧
    (o.mainFreq (data.map Prod.snd) = Except.error () →
       (analyzeMetricRecord o data).main_frequency = none) ∧
    (o.findPeaks = o2.findPeaks → o.mainFreq = o2.mainFreq → o.sem = o2.sem →
       (analyzeMetricRecord o data).mean = (analyzeMetricRecord o2 data).mean ∧
       (analyzeMetricRecord o data).sem = (analyzeMetricRecord o2 data).sem ∧
       (analyzeMetricRecord o data).peaks = (analyzeMetricRecord o2 data).peaks ∧
       (analyzeMetricRecord o data).main_frequency
         = (analyzeMetricRecord o2 data).main_frequency) ∧
    (o.linregress = o2.linregress → o.mainFreq = o2.mainFreq → o.sem = o2.sem →
       (analyzeMetricRecord o data).mean = (analyzeMetricRecord o2 data).mean ∧
       (analyzeMetricRecord o data).sem = (analyzeMetricRecord o2 data).sem ∧
       (analyzeMetricRecord o data).r_squared
         = (analyzeMetricRecord o2 data).r_squared ∧
       (analyzeMetricRecord o data).p_value = (analyzeMetricRecord o2 data).p_value ∧
       (analyzeMetricRecord o data).slope = (analyzeMetricRecord o2 data).slope ∧
       (analyzeMetricRecord o data).main_frequency
         = (analyzeMetricRecord o2 data).main_frequency) ∧
    (o.linregress = o2.linregress → o.findPeaks = o2.findPeaks → o.sem = o2.sem →
       (analyzeMetricRecord o data).mean = (analyzeMetricRecord o2 data).mean ∧
       (analyzeMetricRecord o data).sem = (analyzeMetricRecord o2 data).sem ∧
       (analyzeMetricRecord o data).r_squared
         = (analyzeMetricRecord o2 data).r_squared ∧
       (analyzeMetricRecord o data).p_value = (analyzeMetricRecord o2 data).p_value ∧
       (analyzeMetricRecord o data).slope = (analyzeMetricRecord o2 data).slope ∧
       (analyzeMetricRecord o data).peaks = (analyzeMetricRecord o2 data).peaks) := by
  refine ⟨?_, ?_, ?_, ?_, ?_, ?_⟩
  · intro h
    simp [analyzeMetricRecord, h, RegressionResult.allNaN]
  · intro h
    simp [analyzeMetricRecord, h]
  · intro h
    simp [analyzeMetricRecord, h]
  · intro h1 h2 h3
    simp [analyzeMetricRecord, h1, h2, h3]
  · intro h1 h2 h3
    simp [analyzeMetricRecord, h1, h2, h3]
  · intro h1 h2 h3
    simp [analyzeMetricRecord, h1, h2, h3]

/-- Witness for claim C9 at the all-failing oracle and a one-point series:
every stage fails and exactly the stage fields carry the sentinel. -/
theorem analysis_stage_isolation_witness :
    (analyzeMetricRecord noneOracle [((1:ℚ), (2:ℚ))]).r_squared = none ∧
    (analyzeMetricRecord noneOracle [((1:ℚ), (2:ℚ))]).peaks = [] ∧
    (analyzeMetricRecord noneOracle [((1:ℚ), (2:ℚ))]).main_frequency = none := by
  obtain ⟨h1, h2, h3, _, _, _⟩ :=
    analysis_stage_isolation noneOracle noneOracle [((1:ℚ), (2:ℚ))]
  exact ⟨(h1 rfl).1, h2 rfl, h3 rfl⟩

/-- Outcome of one attempt of the while loop body of run_enhanced_validation.
execFailure is any exception caught by the outer handler of line 123 of the
source: job submission raised, a None result, or empty measurement counts.
metricFailure is any exception caught by the inner handler of line 119: a
metric computation raised, or the non-numeric check of line 104 fired.
success carries the returned histogram; the loop then computes the three
metrics from it. -/
inductive AttemptResult where
  | execFailure : AttemptResult
  | metricFailure : AttemptResult
  | success : Counts → AttemptResult
deriving DecidableEq

def max_retries : ℕ := 3

def retry_delay : ℕ := 5

/-- The accumulated state of run_enhanced_validation: the three metric
series plus the trace of time.sleep calls, in order. -/
structure SweepResults where
  temporal_correlation : List (ℚ × ℚ)
  falsification : List (ℚ × ℚ)
  beyond_quantum : List (ℚ × ℚ)
  sleeps : List ℕ
deriving DecidableEq

/-- One parameter point of the while loop (lines 76-134 of the source),
driven by a schedule f giving the outcome of each attempt.  fuel is
max_retries - retry_count, so fuel = 0 is exactly the loop condition
retry_count < max_retries failing.  On success the three metric values are
appended.  On a metric-stage failure only retry_count advances (the inner
handler neither sleeps nor appends).  On an execution-stage failure the
loop sleeps retry_delay and retries while retry_count < max_retries, and
appends the (param, 0.0) sentinels once the maximum is reached. -/
def runPointGo (param : ℚ) (f : ℕ → AttemptResult) :
    ℕ → ℕ → SweepResults
  | 0, _ => ⟨[], [], [], []⟩
  | fuel + 1, rc =>
      match f rc with
      | AttemptResult.success c =>
          ⟨[(param, calculate_temporal_correlation c)],
           [(param, calculate_falsification_metric c)],
           [(param, calculate_beyond_quantum_metric c)], []⟩
      | AttemptResult.metricFailure => runPointGo param f fuel (rc + 1)
      | AttemptResult.execFailure =>
          if rc + 1 < max_retries then
            let rest := runPointGo param f fuel (rc + 1)
            ⟨rest.temporal_correlation, rest.falsification,
             rest.beyond_quantum, retry_delay :: rest.sleeps⟩
          else
            ⟨[(param, 0)], [(param, 0)], [(param, 0)], []⟩

def runPoint (param : ℚ) (f : ℕ → AttemptResult) : SweepResults :=
  runPointGo param f max_retries 0

/-- param_range = np.linspace(0.1, 2.0, 8), exactly: 1/10 + k * 19/70. -/
def param_range : List ℚ :=
  (List.range 8).map (fun k => 1/10 + (k : ℚ) * (19/70))

/-- The full parameter sweep: each point runs its while loop, then
time.sleep(2) of line 136 of the source follows the point regardless of
outcome.  The schedule maps (point index, retry_count) to the outcome of
that attempt. -/
def runSweep (f : ℕ → ℕ → AttemptResult) : SweepResults :=
  let traces := param_range.enum.map (fun p => runPoint p.2 (f p.1))
  { temporal_correlation := (traces.map (fun t => t.temporal_correlation)).flatten
    falsification := (traces.map (fun t => t.falsification)).flatten
    beyond_quantum := (traces.map (fun t => t.beyond_quantum)).flatten
    sleeps := (traces.map (fun t => t.sleeps ++ [2])).flatten }

/-- run_enhanced_validation: after the sweep, the final check of lines
138-140 of the source raises unless every series has the sweep length. -/
def run_enhanced_validation (f : ℕ → ℕ → AttemptResult) :
    Except String SweepResults :=
  let results := runSweep f
  if results.temporal_correlation.length = param_range.length ∧
     results.falsification.length = param_range.length ∧
     results.beyond_quantum.length = param_range.length then
    Except.ok results
  else
    Except.error "Incomplete results collected"

def isFailure : AttemptResult → Bool
  | AttemptResult.success _ => false
  | _ => true

def isExecFailure : AttemptResult → Bool
  | AttemptResult.execFailure => true
  | _ => false

/-- Number of attempts the while loop actually makes under schedule g:
it stops at the first success and after at most max_retries failures. -/
def attemptsTaken (g : ℕ → AttemptResult) : ℕ :=
  if isFailure (g 0) = false then 1
  else if isFailure (g 1) = false then 2
  else 3

/-- Number of non-final attempts that fail at the execution stage; these
are exactly the attempts after which the source sleeps retry_delay. -/
def execBackoffCount (g : ℕ → AttemptResult) : ℕ :=
  (List.range (attemptsTaken g - 1)).countP (fun i => isExecFailure (g i))

/-- Claim C1 (code evaluation): when every attempt of every point fails at
the metric-computation stage, no sentinel is ever appended (the inner
handler of line 119 of the source only increments the counter), every
series stays shorter than the sweep length, and run_enhanced_validation
raises its own Incomplete results collected error instead of returning. -/
theorem length_check_fails_on_metric_failures :
    run_enhanced_validation (fun _ _ => AttemptResult.metricFailure) =
      Except.error "Incomplete results collected" := rfl

/-- Schedule of claim C5: point 0 fails its first two attempts at the
execution stage and its third attempt at the metric stage, exhausting the
maximum of 3 attempts; every other point succeeds immediately. -/
def c5sched : ℕ → ℕ → AttemptResult := fun idx rc =>
  if idx = 0 then
    (if rc < 2 then AttemptResult.execFailure else AttemptResult.metricFailure)
  else AttemptResult.success [([0,0,0,0,0,0,0,0], 100)]

/-- Claim C5 (code evaluation): under c5sched, point 0 exhausts its 3
attempts (two backoff sleeps are recorded and the sweep still visits all 8
points, as the eight inter-point sleeps show), yet no sentinel pair is
recorded for it: each series has only the 7 entries of the successful
points, and the final length check then raises. -/
theorem exhausted_point_missing_sentinel :
    (runSweep c5sched).temporal_correlation.length = 7 ∧
    (runSweep c5sched).falsification.length = 7 ∧
    (runSweep c5sched).beyond_quantum.length = 7 ∧
    (runSweep c5sched).sleeps = [5, 5, 2, 2, 2, 2, 2, 2, 2, 2] ∧
    param_range.length = 8 ∧
    run_enhanced_validation c5sched = Except.error "Incomplete results collected" :=
  ⟨rfl, rfl, rfl, rfl, rfl, rfl⟩

/-- Schedule of the claim C8 counterexample: the first attempt fails at the
metric stage, the second succeeds. -/
def c8sched : ℕ → AttemptResult := fun rc =>
  if rc = 0 then AttemptResult.metricFailure
  else AttemptResult.success [([0,0,0,0,0,0,0,0], 100)]

/-- Claim C8 counterexample: under c8sched the first attempt fails and is
not the final allowed attempt (a second attempt runs and records a result),
yet the point performs no sleep at all before the next attempt: the inner
metric-failure handler has no backoff, contradicting the claim that every
non-final failed attempt is followed by a 5 time-unit delay. -/
theorem retry_backoff_cex :
    isFailure (c8sched 0) = true ∧
    attemptsTaken c8sched = 2 ∧
    (runPoint 1 c8sched).temporal_correlation.length = 1 ∧
    (runPoint 1 c8sched).sleeps = [] :=
  ⟨rfl, rfl, rfl, rfl⟩

/-- The sleeps of one point are exactly one retry_delay per non-final
execution-stage failure; metric-stage failures contribute none. -/
lemma runPoint_sleeps (param : ℚ) (g : ℕ → AttemptResult) :
    (runPoint param g).sleeps = List.replicate (execBackoffCount g) retry_delay := by
  rcases h0 : g 0 with _ | _ | c0 <;>
  rcases h1 : g 1 with _ | _ | c1 <;>
  rcases h2 : g 2 with _ | _ | c2 <;>
  simp [runPoint, runPointGo, h0, h1, h2, attemptsTaken, execBackoffCount,
    isFailure, isExecFailure, max_retries, retry_delay, List.range_succ]

lemma count_two_flatten (f : ℕ → ℕ → AttemptResult) :
    ∀ l : List (ℕ × ℚ),
      ((l.map (fun p => (runPoint p.2 (f p.1)).sleeps ++ [2])).flatten).count 2
        = l.length
  | [] => by simp
  | p :: t => by
      have ih := count_two_flatten f t
      have hs := runPoint_sleeps p.2 (f p.1)
      have h5 : (List.replicate (execBackoffCount (f p.1)) retry_delay).count 2 = 0 := by
        apply List.count_eq_zero_of_not_mem
        intro hmem
        have := List.eq_of_mem_replicate hmem
        simp [retry_delay] at this
      simp [List.count_append, ih, hs, h5]

/-- Claim C8 (amended): per parameter point, the sleep trace is exactly one
5 time-unit backoff per non-final execution-stage failure (metric-stage
failures retry immediately with no backoff), and the sweep performs exactly
one 2 time-unit inter-point delay per parameter point, placed after the
point regardless of outcome. -/
theorem backoff_structure (param : ℚ) (g : ℕ → AttemptResult)
    (f : ℕ → ℕ → AttemptResult) :
    (runPoint param g).sleeps = List.replicate (execBackoffCount g) retry_delay ∧
    (runSweep f).sleeps.count 2 = param_range.length ∧
    (runSweep f).sleeps =
      (param_range.enum.map (fun p => (runPoint p.2 (f p.1)).sleeps ++ [2])).flatten := by
  refine ⟨runPoint_sleeps param g, ?_, rfl⟩
  have h := count_two_flatten f param_range.enum
  rwa [List.enum_length] at h

end ATH
